import Mathlib

/-!
Verification of the `fnaop` attribute-macro transformation (`src/lib.rs`).

The repository implements one compile-time transformation, `Aspect`, that
rewrites a function so that an optional `before` hook and an optional
`after` hook bracket the original body, forwarding the original arguments
(by reference) to both hooks.

The development has two layers:

* a syntactic layer that mirrors the pieces of the input the macro inspects
  (parameter list, return type, visibility, attribute arguments) and the
  structure of the emitted function, together with a Lean translation of
  the `Aspect` function itself (panics become `Except.error`);
* a semantic layer: a small operational semantics for function bodies
  (straight-line statements with observable effects, early return, and a
  trailing result expression) under which the emitted function is executed,
  producing a trace of events and a return value.
-/

namespace Fnaop

/-- Runtime values of the little body language. -/
inductive Value where
  | unit
  | int (n : Int)
deriving DecidableEq, Repr

/-- A declared parameter type, as inspected by the macro: the only thing
`Aspect` looks at is whether the type is `Type::Reference`; everything else
is opaque (carried as a string so distinct types stay distinct). -/
inductive Ty where
  | reference (inner : String)
  | plain (name : String)
deriving DecidableEq, Repr

/-- A binding pattern of a parameter: `Pat::Ident` carries the binding
identifier; any non-identifier pattern is collapsed to `wild` (the macro
never looks inside it, it only panics). -/
inductive Pat where
  | ident (name : String)
  | wild (descr : String)
deriving DecidableEq, Repr

/-- A function parameter: `syn::FnArg` is either a typed pattern or a
`self` receiver. -/
inductive FnArg where
  | typed (pat : Pat) (ty : Ty)
  | receiver
deriving DecidableEq, Repr

/-- Return type of the function: `ReturnType::Default` (unit) or
`ReturnType::Type` with a type. -/
inductive ReturnTy where
  | default
  | typed (ty : Ty)
deriving DecidableEq, Repr

/-- Original visibility: `Visibility::Public` or anything else
(inherited/private or restricted such as a crate- or path-scoped one). -/
inductive Visibility where
  | pub
  | inherited
  | restricted (scope : String)
deriving DecidableEq, Repr

/-- Visibility of the emitted function: the macro only ever emits `pub`
or `pub(crate)`. -/
inductive VisOut where
  | pub
  | pubCrate
deriving DecidableEq, Repr

/-- A literal in an attribute argument: a string literal or anything
else. -/
inductive Lit where
  | str (s : String)
  | other (descr : String)
deriving DecidableEq, Repr

/-- A meta item in the attribute argument list: `Meta::NameValue` carries
the name path (a list of segments) and the literal; other meta forms are
opaque. -/
inductive MetaArg where
  | nameValue (path : List String) (lit : Lit)
  | other (descr : String)
deriving DecidableEq, Repr

/-- One attribute argument, `syn::NestedMeta`: a meta item or a bare
literal. -/
inductive NestedMeta where
  | meta (m : MetaArg)
  | lit (l : Lit)
deriving DecidableEq, Repr

/-- A callable path, `syn::Path`: its segments. -/
structure SynPath where
  segments : List String
deriving DecidableEq, Repr

/-- A forwarding expression synthesized for one parameter: either the bare
identifier (the parameter type is already a reference) or a reference to
the identifier. -/
inductive FwdExpr where
  | bare (ident : String)
  | byRef (ident : String)
deriving DecidableEq, Repr

/-- An expression of the little body language. -/
inductive BExpr where
  | lit (v : Value)
  | var (x : String)
deriving DecidableEq, Repr

/-- A statement of the little body language: an observable effect, an
early `return e;`, or an early `return;`. -/
inductive Stmt where
  | effect (tag : String) (e : BExpr)
  | ret (e : BExpr)
  | retUnit
deriving DecidableEq, Repr

/-- A function body block: statements followed by an optional trailing
expression. -/
structure Block where
  stmts : List Stmt
  tail : Option BExpr
deriving DecidableEq, Repr

/-- The decorated function, the parts of `syn::ItemFn` the macro reads:
visibility, name, generics (opaque, passed through verbatim), parameter
list, return type and body block. -/
structure ItemFn where
  vis : Visibility
  name : String
  generics : List String
  inputs : List FnArg
  output : ReturnTy
  body : Block
deriving DecidableEq, Repr

/-- A hook invocation statement emitted into the new body:
`#path(#(#fn_args),*);`. -/
structure HookCall where
  path : SynPath
  args : List FwdExpr
deriving DecidableEq, Repr

/-- The body of the emitted function; the two cases of the final `match` on
the return type in `Aspect`:

* `unitBody bc body ac` is `{ before_call #fn_block after_call }` with the
  original block inlined as a statement;
* `typedBody bc body ac` is
  `{ before_call let result = (|| { #fn_block })(); after_call result }`
  with the original block wrapped in an immediately-invoked closure.

A `none` hook slot means the corresponding call is elided entirely
(the `quote! {}` branch). -/
inductive EmittedBody where
  | unitBody (beforeCall : Option HookCall) (origBody : Block) (afterCall : Option HookCall)
  | typedBody (beforeCall : Option HookCall) (origBody : Block) (afterCall : Option HookCall)
deriving DecidableEq, Repr

/-- The emitted function definition:
`#vis fn #fn_name #fn_generics (#fn_inputs) [-> #ty] { ... }`. -/
structure EmittedFn where
  vis : VisOut
  name : String
  generics : List String
  inputs : List FnArg
  output : ReturnTy
  body : EmittedBody
deriving DecidableEq, Repr

/-- The before-hook slot of an emitted body. -/
def EmittedBody.beforeHook : EmittedBody → Option HookCall
  | .unitBody bc _ _ => bc
  | .typedBody bc _ _ => bc

/-- The after-hook slot of an emitted body. -/
def EmittedBody.afterHook : EmittedBody → Option HookCall
  | .unitBody _ _ ac => ac
  | .typedBody _ _ ac => ac

/-- `meta.path.get_ident()`: a path made of exactly one segment yields that
segment. -/
def getIdent : List String → Option String
  | [s] => some s
  | _ => none

/-- First character of an identifier: alphabetic or underscore. -/
def isIdentStartChar (c : Char) : Bool :=
  c.isAlpha || c == '_'

/-- Subsequent character of an identifier: alphanumeric or underscore. -/
def isIdentChar (c : Char) : Bool :=
  c.isAlphanum || c == '_'

/-- Whether a string is a well-formed identifier. -/
def isIdentStr (s : String) : Bool :=
  match s.data with
  | [] => false
  | c :: cs => isIdentStartChar c && cs.all isIdentChar

/-- Split a character list at every `::` separator. -/
def splitSegsAux : List Char → List Char → List String
  | [], acc => [String.mk acc.reverse]
  | ':' :: ':' :: rest, acc => String.mk acc.reverse :: splitSegsAux rest []
  | c :: rest, acc => splitSegsAux rest (c :: acc)

/-- The `::`-separated segments of a path string. -/
def pathSegs (s : String) : List String :=
  splitSegsAux s.data []

/-- Modelled from the spec: the external library call
`syn::parse_str::<syn::Path>` is not part of this repository; the spec
describes its input as "a callable reference path (a dotted/scoped
identifier naming a function, possibly nested in sub-scopes)". A string
parses exactly when it is a non-empty sequence of well-formed identifiers
separated by `::`. -/
def parsePath (s : String) : Option SynPath :=
  if (pathSegs s).all isIdentStr then some ⟨pathSegs s⟩ else none

/-- The per-parameter step of the `fn_args` map in `Aspect`
(lines 160-173 of `src/lib.rs`): an identifier-bound typed parameter
yields `#ident` when its type is a reference and `&#ident` otherwise;
a non-identifier pattern or a receiver panics. -/
def synthesizeFwd : FnArg → Except String FwdExpr
  | .typed (.ident name) ty =>
    match ty with
    | .reference _ => .ok (.bare name)
    | .plain _ => .ok (.byRef name)
  | .typed (.wild _) _ => .error "Expected an identifier pattern"
  | .receiver => .error "Expected a typed pattern, not self"

/-- The `fn_args` collection: map `synthesizeFwd` over the parameter list
in declaration order, propagating the first panic. -/
def computeFnArgs : List FnArg → Except String (List FwdExpr)
  | [] => .ok []
  | a :: rest =>
    match synthesizeFwd a with
    | .error e => .error e
    | .ok f =>
      match computeFnArgs rest with
      | .error e => .error e
      | .ok fs => .ok (f :: fs)

/-- The attribute-argument loop of `Aspect` (lines 179-193): walk the
argument list with the two mutable slots `before_fn`/`after_fn` made
explicit. A `Meta::NameValue` whose path is a single identifier `before`
or `after` and whose literal is a string has the string parsed as a path
(`unwrap` panics on failure, modelled as an error) and stored in its slot,
a later occurrence overwriting an earlier one; every other argument is
skipped. -/
def parseHooksLoop :
    List NestedMeta → Option SynPath → Option SynPath →
      Except String (Option SynPath × Option SynPath)
  | [], b, a => .ok (b, a)
  | .meta (.nameValue p (.str s)) :: rest, b, a =>
    match getIdent p with
    | some n =>
      if n = "before" then
        match parsePath s with
        | some pp => parseHooksLoop rest (some pp) a
        | none => .error "called `Option::unwrap()` on a `None` value"
      else if n = "after" then
        match parsePath s with
        | some pp => parseHooksLoop rest b (some pp)
        | none => .error "called `Option::unwrap()` on a `None` value"
      else
        parseHooksLoop rest b a
    | none => parseHooksLoop rest b a
  | .meta (.nameValue _ (.other _)) :: rest, b, a => parseHooksLoop rest b a
  | .meta (.other _) :: rest, b, a => parseHooksLoop rest b a
  | .lit _ :: rest, b, a => parseHooksLoop rest b a

/-- The `Aspect` attribute macro (lines 148-240 of `src/lib.rs`):
compute the forwarding expressions, parse the hook configuration, build
the optional `before_call`/`after_call` statements, normalize visibility,
and emit the new function, choosing the body shape by the return type.
A `panic!` or `unwrap` failure anywhere is an `Except.error`. -/
def Aspect (args : List NestedMeta) (input : ItemFn) : Except String EmittedFn :=
  match computeFnArgs input.inputs with
  | .error e => .error e
  | .ok fn_args =>
    match parseHooksLoop args none none with
    | .error e => .error e
    | .ok (before_fn, after_fn) =>
      let before_call : Option HookCall := before_fn.map fun p => ⟨p, fn_args⟩
      let after_call : Option HookCall := after_fn.map fun p => ⟨p, fn_args⟩
      let vis : VisOut :=
        match input.vis with
        | .pub => .pub
        | _ => .pubCrate
      let body : EmittedBody :=
        match input.output with
        | .default => .unitBody before_call input.body after_call
        | .typed _ => .typedBody before_call input.body after_call
      .ok ⟨vis, input.name, input.generics, input.inputs, input.output, body⟩

/-! ## Operational semantics

Execution of a body produces a trace of observable events and an outcome.
Hook functions are external collaborators: per the spec their effects are
"logging, metrics, mutation of external state", so a hook call is modelled
as one observable event recording the hook path and the argument values it
observes; its return value is discarded. -/

/-- An observable event: a hook invocation (with the values the hook
observes, in positional order), or an effect performed by the original
body. -/
inductive Event where
  | hook (path : List String) (args : List Value)
  | effect (tag : String) (v : Value)
deriving DecidableEq, Repr

/-- The environment binding the parameters of the invocation to values. -/
def Env := List (String × Value)

/-- Value bound to a variable (unit when unbound). -/
def lookupVar (env : Env) (x : String) : Value :=
  match env.find? (fun p => p.1 == x) with
  | some p => p.2
  | none => .unit

/-- Evaluate an expression of the body language. -/
def evalExpr (env : Env) : BExpr → Value
  | .lit v => v
  | .var x => lookupVar env x

/-- Run a statement list: the events it emits, and `some v` when a
`return` statement was hit (abandoning the rest of the list). -/
def runStmts (env : Env) : List Stmt → List Event × Option Value
  | [] => ([], none)
  | .effect tag e :: rest =>
    let r := runStmts env rest
    (.effect tag (evalExpr env e) :: r.1, r.2)
  | .ret e :: _ => ([], some (evalExpr env e))
  | .retUnit :: _ => ([], some .unit)

/-- Outcome of running a block: it finished normally with the trailing
expression's value, or it hit an early `return`. -/
inductive Outcome where
  | normal (v : Value)
  | early (v : Value)
deriving DecidableEq, Repr

/-- Run a block: its events and its outcome. -/
def evalBlock (env : Env) (b : Block) : List Event × Outcome :=
  match runStmts env b.stmts with
  | (tr, some v) => (tr, .early v)
  | (tr, none) =>
    (tr, .normal (match b.tail with
      | some e => evalExpr env e
      | none => .unit))

/-- The value a forwarding expression lets the hook observe: forwarding
the bare identifier (a reference already) and forwarding `&ident` both
make the hook observe the parameter's value. -/
def evalFwd (env : Env) : FwdExpr → Value
  | .bare x => lookupVar env x
  | .byRef x => lookupVar env x

/-- Events of an optional hook call: one hook event when the slot is
configured, nothing when it is elided. -/
def hookEvents (env : Env) : Option HookCall → List Event
  | none => []
  | some c => [.hook c.path.segments (c.args.map (evalFwd env))]

/-- Run an emitted body under Rust semantics:

* `unitBody`: the original block is inlined as a statement, so an early
  `return` inside it returns from the emitted function itself and the
  after call is skipped; the function returns unit.
* `typedBody`: the original block runs inside the immediately-invoked
  closure `(|| { #fn_block })()`, so an early `return` only exits the
  closure; either way its value is bound to `result`, the after call
  runs, and `result` is returned. -/
def runBody (env : Env) : EmittedBody → List Event × Value
  | .unitBody bc body ac =>
    let r := evalBlock env body
    match r.2 with
    | .early _ => (hookEvents env bc ++ r.1, .unit)
    | .normal _ => (hookEvents env bc ++ r.1 ++ hookEvents env ac, .unit)
  | .typedBody bc body ac =>
    let r := evalBlock env body
    let result := match r.2 with
      | .early v => v
      | .normal v => v
    (hookEvents env bc ++ r.1 ++ hookEvents env ac, result)

/-- Run an emitted function on an environment. -/
def runEmitted (env : Env) (f : EmittedFn) : List Event × Value :=
  runBody env f.body

/-- Run the original, untransformed function: its block executes as the
function body, so an early `return v` and a normal finish both return
from the function; a unit function returns unit. -/
def runOriginal (env : Env) (f : ItemFn) : List Event × Value :=
  let r := evalBlock env f.body
  match f.output with
  | .default => (r.1, .unit)
  | .typed _ =>
    (r.1, match r.2 with
      | .early v => v
      | .normal v => v)

/-! ## Spec-side predicates

Boolean classifiers written from the spec's wording, compared against the
code-side functions in the claims. -/

/-- Spec-side (§4.2): a parameter the signature analyzer rejects — an
implicit receiver, or a typed parameter bound by a non-identifier
pattern. -/
def badParam : FnArg → Bool
  | .receiver => true
  | .typed (.ident _) _ => false
  | .typed (.wild _) _ => true

/-- Spec-side (§4.3): the forwarding rule — a reference-typed parameter
forwards the bare identifier, anything else forwards a reference to it. -/
def specFwd (name : String) (ty : Ty) : FwdExpr :=
  match ty with
  | .reference _ => .bare name
  | .plain _ => .byRef name

/-- Spec-side (§4.1): an attribute argument carrying a recognized hook
name (`before` or `after`) with a string value that does not parse as a
callable path. -/
def malformedHookArg : NestedMeta → Bool
  | .meta (.nameValue p (.str s)) =>
    match getIdent p with
    | some n => (n == "before" || n == "after") && (parsePath s).isNone
    | none => false
  | _ => false

/-- Spec-side (§4.1): an attribute argument that can set a hook slot — a
name-value pair whose single-identifier name is `before` or `after` and
whose value is a string literal. -/
def setsHookSlot : NestedMeta → Bool
  | .meta (.nameValue p (.str _)) =>
    match getIdent p with
    | some n => n == "before" || n == "after"
    | none => false
  | _ => false

/-- Spec-side (C8): a name-value attribute argument whose name is neither
`before` nor `after`. -/
def otherNamed : NestedMeta → Bool
  | .meta (.nameValue p _) =>
    match getIdent p with
    | some n => !(n == "before") && !(n == "after")
    | none => true
  | _ => false

/-- Whether an `Except` computation succeeded. -/
def isOkE {ε α : Type} : Except ε α → Bool
  | .ok _ => true
  | .error _ => false

/-! ## Shared structure lemmas -/

/-- `computeFnArgs` succeeds exactly when no parameter is rejected. -/
theorem computeFnArgs_isOk (l : List FnArg) :
    isOkE (computeFnArgs l) = !(l.any badParam) := by
  induction l with
  | nil => rfl
  | cons a rest ih =>
    cases a with
    | receiver => simp [computeFnArgs, synthesizeFwd, badParam, isOkE]
    | typed pat ty =>
      cases pat with
      | wild d => simp [computeFnArgs, synthesizeFwd, badParam, isOkE]
      | ident name =>
        cases ty with
        | reference inner =>
          simp only [computeFnArgs, synthesizeFwd, List.any_cons, badParam,
            Bool.false_or]
          cases h : computeFnArgs rest with
          | ok fs => simpa [isOkE, h] using ih
          | error e => simpa [isOkE, h] using ih
        | plain nm =>
          simp only [computeFnArgs, synthesizeFwd, List.any_cons, badParam,
            Bool.false_or]
          cases h : computeFnArgs rest with
          | ok fs => simpa [isOkE, h] using ih
          | error e => simpa [isOkE, h] using ih

/-- On success, `computeFnArgs` returns exactly the spec forwarding rule
applied to each parameter's identifier and type, in declaration order. -/
theorem computeFnArgs_ok_spec (l : List FnArg) (fwds : List FwdExpr)
    (h : computeFnArgs l = .ok fwds) :
    fwds.length = l.length ∧
    ∀ i, i < l.length →
      ∃ name ty, l[i]? = some (.typed (.ident name) ty) ∧
        fwds[i]? = some (specFwd name ty) := by
  induction l generalizing fwds with
  | nil =>
    simp only [computeFnArgs] at h
    cases h
    exact ⟨rfl, fun i hi => absurd hi (by simp)⟩
  | cons a rest ih =>
    simp only [computeFnArgs] at h
    cases ha : synthesizeFwd a with
    | error e => rw [ha] at h; cases h
    | ok f =>
      rw [ha] at h
      cases hr : computeFnArgs rest with
      | error e => rw [hr] at h; cases h
      | ok fs =>
        rw [hr] at h
        cases h
        obtain ⟨hlen, hget⟩ := ih fs hr
        refine ⟨by simp [hlen], fun i hi => ?_⟩
        cases i with
        | zero =>
          cases a with
          | receiver => simp [synthesizeFwd] at ha
          | typed pat ty =>
            cases pat with
            | wild d => simp [synthesizeFwd] at ha
            | ident name =>
              refine ⟨name, ty, by simp, ?_⟩
              cases ty with
              | reference inner =>
                simp only [synthesizeFwd] at ha
                cases ha
                simp [specFwd]
              | plain nm =>
                simp only [synthesizeFwd] at ha
                cases ha
                simp [specFwd]
        | succ j =>
          obtain ⟨name, ty, h1, h2⟩ := hget j (by simpa using hi)
          exact ⟨name, ty, by simpa using h1, by simpa using h2⟩

/-- Structure of a successful `Aspect` run: the forwarding expressions and
the hook configuration exist, and the emitted function is assembled from
them exactly as the source's final `quote!` does. -/
theorem Aspect_ok_structure (args : List NestedMeta) (input : ItemFn)
    (f : EmittedFn) (h : Aspect args input = .ok f) :
    ∃ fwds b a,
      computeFnArgs input.inputs = .ok fwds ∧
      parseHooksLoop args none none = .ok (b, a) ∧
      f = ⟨(match input.vis with
             | .pub => .pub
             | _ => .pubCrate),
           input.name, input.generics, input.inputs, input.output,
           (match input.output with
            | .default =>
              .unitBody (b.map fun p => ⟨p, fwds⟩) input.body
                (a.map fun p => ⟨p, fwds⟩)
            | .typed _ =>
              .typedBody (b.map fun p => ⟨p, fwds⟩) input.body
                (a.map fun p => ⟨p, fwds⟩))⟩ := by
  unfold Aspect at h
  cases hfa : computeFnArgs input.inputs with
  | error e => rw [hfa] at h; cases h
  | ok fwds =>
    rw [hfa] at h
    cases hp : parseHooksLoop args none none with
    | error e => rw [hp] at h; cases h
    | ok ba =>
      rw [hp] at h
      obtain ⟨b, a⟩ := ba
      simp only at h
      cases h
      exact ⟨fwds, b, a, rfl, rfl, rfl⟩

/-- Inserting an attribute argument whose name is neither `before` nor
`after` anywhere in the argument list leaves the hook-parsing loop's
result unchanged, from any loop state. -/
theorem parseHooksLoop_skip_insert (l1 l2 : List NestedMeta) (x : NestedMeta)
    (hx : otherNamed x = true) (b a : Option SynPath) :
    parseHooksLoop (l1 ++ x :: l2) b a = parseHooksLoop (l1 ++ l2) b a := by
  induction l1 generalizing b a with
  | nil =>
    simp only [List.nil_append]
    cases x with
    | lit l => simp [otherNamed] at hx
    | meta m =>
      cases m with
      | other d => simp [otherNamed] at hx
      | nameValue p lit =>
        cases lit with
        | other d => simp [parseHooksLoop]
        | str s =>
          cases hg : getIdent p with
          | none => simp [parseHooksLoop, hg]
          | some n =>
            simp only [otherNamed, hg, Bool.and_eq_true, Bool.not_eq_true',
              beq_eq_false_iff_ne] at hx
            simp [parseHooksLoop, hg, hx.1, hx.2]
  | cons y l1 ih =>
    cases y with
    | lit l => simpa [parseHooksLoop] using ih b a
    | meta m =>
      cases m with
      | other d => simpa [parseHooksLoop] using ih b a
      | nameValue p lit =>
        cases lit with
        | other d => simpa [parseHooksLoop] using ih b a
        | str s =>
          cases hg : getIdent p with
          | none => simpa [parseHooksLoop, hg] using ih b a
          | some n =>
            by_cases hb : n = "before"
            · subst hb
              cases hp : parsePath s with
              | none => simp [parseHooksLoop, hg, hp]
              | some pp => simpa [parseHooksLoop, hg, hp] using ih (some pp) a
            · by_cases hA : n = "after"
              · subst hA
                cases hp : parsePath s with
                | none => simp [parseHooksLoop, hg, hp]
                | some pp => simpa [parseHooksLoop, hg, hp] using ih b (some pp)
              · simpa [parseHooksLoop, hg, hb, hA] using ih b a

/-- If some argument is a recognized hook name with an unparseable path
string, the hook-parsing loop fails, from any loop state. -/
theorem parseHooksLoop_any_malformed (args : List NestedMeta)
    (hm : args.any malformedHookArg = true) (b a : Option SynPath) :
    isOkE (parseHooksLoop args b a) = false := by
  induction args generalizing b a with
  | nil => simp at hm
  | cons y rest ih =>
    cases y with
    | lit l =>
      simp only [List.any_cons, malformedHookArg, Bool.false_or] at hm
      simpa [parseHooksLoop] using ih hm b a
    | meta m =>
      cases m with
      | other d =>
        simp only [List.any_cons, malformedHookArg, Bool.false_or] at hm
        simpa [parseHooksLoop] using ih hm b a
      | nameValue p lit =>
        cases lit with
        | other d =>
          simp only [List.any_cons, malformedHookArg, Bool.false_or] at hm
          simpa [parseHooksLoop] using ih hm b a
        | str s =>
          cases hg : getIdent p with
          | none =>
            simp only [List.any_cons, malformedHookArg, hg, Bool.false_or] at hm
            simpa [parseHooksLoop, hg] using ih hm b a
          | some n =>
            by_cases hb : n = "before"
            · subst hb
              cases hp : parsePath s with
              | none => simp [parseHooksLoop, hg, hp, isOkE]
              | some pp =>
                simp only [List.any_cons, malformedHookArg, hg, hp,
                  Option.isNone_some, Bool.and_false, Bool.false_or] at hm
                simpa [parseHooksLoop, hg, hp] using ih hm (some pp) a
            · by_cases hA : n = "after"
              · subst hA
                cases hp : parsePath s with
                | none => simp [parseHooksLoop, hg, hp, isOkE]
                | some pp =>
                  simp only [List.any_cons, malformedHookArg, hg, hp,
                    Option.isNone_some, Bool.and_false, Bool.false_or] at hm
                  simpa [parseHooksLoop, hg, hp] using ih hm b (some pp)
              · simp only [List.any_cons, malformedHookArg, hg] at hm
                have hm2 : rest.any malformedHookArg = true := by
                  revert hm
                  simp [hb, hA]
                simpa [parseHooksLoop, hg, hb, hA] using ih hm2 b a

/-- If no argument is a recognized hook name with an unparseable path
string, the hook-parsing loop succeeds, from any loop state. -/
theorem parseHooksLoop_no_malformed (args : List NestedMeta)
    (hm : args.any malformedHookArg = false) (b a : Option SynPath) :
    isOkE (parseHooksLoop args b a) = true := by
  induction args generalizing b a with
  | nil => simp [parseHooksLoop, isOkE]
  | cons y rest ih =>
    simp only [List.any_cons, Bool.or_eq_false_iff] at hm
    obtain ⟨hy, hrest⟩ := hm
    cases y with
    | lit l => simpa [parseHooksLoop] using ih hrest b a
    | meta m =>
      cases m with
      | other d => simpa [parseHooksLoop] using ih hrest b a
      | nameValue p lit =>
        cases lit with
        | other d => simpa [parseHooksLoop] using ih hrest b a
        | str s =>
          cases hg : getIdent p with
          | none => simpa [parseHooksLoop, hg] using ih hrest b a
          | some n =>
            by_cases hb : n = "before"
            · subst hb
              cases hp : parsePath s with
              | none => simp [malformedHookArg, hg, hp] at hy
              | some pp => simpa [parseHooksLoop, hg, hp] using ih hrest (some pp) a
            · by_cases hA : n = "after"
              · subst hA
                cases hp : parsePath s with
                | none => simp [malformedHookArg, hg, hp] at hy
                | some pp => simpa [parseHooksLoop, hg, hp] using ih hrest b (some pp)
              · simpa [parseHooksLoop, hg, hb, hA] using ih hrest b a

/-- If no argument can set a hook slot, the loop returns its state
unchanged. -/
theorem parseHooksLoop_no_setter (args : List NestedMeta)
    (h : args.any setsHookSlot = false) (b a : Option SynPath) :
    parseHooksLoop args b a = .ok (b, a) := by
  induction args generalizing b a with
  | nil => rfl
  | cons y rest ih =>
    simp only [List.any_cons, Bool.or_eq_false_iff] at h
    obtain ⟨hy, hrest⟩ := h
    cases y with
    | lit l => simpa [parseHooksLoop] using ih hrest b a
    | meta m =>
      cases m with
      | other d => simpa [parseHooksLoop] using ih hrest b a
      | nameValue p lit =>
        cases lit with
        | other d => simpa [parseHooksLoop] using ih hrest b a
        | str s =>
          cases hg : getIdent p with
          | none => simpa [parseHooksLoop, hg] using ih hrest b a
          | some n =>
            simp only [setsHookSlot, hg, Bool.or_eq_false_iff,
              beq_eq_false_iff_ne] at hy
            simpa [parseHooksLoop, hg, hy.1, hy.2] using ih hrest b a

/-! ## Sample inputs used by witnesses -/

/-- Attribute arguments `before = "before_fn", after = "after_fn"`. -/
def exArgs : List NestedMeta :=
  [.meta (.nameValue ["before"] (.str "before_fn")),
   .meta (.nameValue ["after"] (.str "after_fn"))]

/-- Attribute arguments with a malformed `before` path string. -/
def exBadArgs : List NestedMeta :=
  [.meta (.nameValue ["before"] (.str "###"))]

/-- An attribute argument with an unrecognized name. -/
def exOtherArg : NestedMeta :=
  .meta (.nameValue ["around"] (.str "around_fn"))

/-- `pub fn g(x: i64) -> i64 { body-effect(x); x }`. -/
def exTypedFn : ItemFn :=
  ⟨.pub, "g", [], [.typed (.ident "x") (.plain "i64")], .typed (.plain "i64"),
   ⟨[.effect "body" (.var "x")], some (.var "x")⟩⟩

/-- `fn f() { body-effect; return; }`: a unit function whose body exits
early. -/
def exUnitEarlyFn : ItemFn :=
  ⟨.inherited, "f", [], [], .default,
   ⟨[.effect "b1" (.lit .unit), .retUnit], none⟩⟩

/-- `pub fn h(x: &i64) -> i64 { return x; 0 }`: a typed function whose
body exits early. -/
def exTypedEarlyFn : ItemFn :=
  ⟨.pub, "h", [], [.typed (.ident "x") (.reference "i64")], .typed (.plain "i64"),
   ⟨[.ret (.var "x")], some (.lit (.int 0))⟩⟩

/-- Environment binding `x` to `42`. -/
def exEnv : Env := [("x", .int 42)]

/-- The function `Aspect exArgs exTypedFn` emits. -/
def exTypedEmitted : EmittedFn :=
  ⟨.pub, "g", [], [.typed (.ident "x") (.plain "i64")], .typed (.plain "i64"),
   .typedBody (some ⟨⟨["before_fn"]⟩, [.byRef "x"]⟩)
     ⟨[.effect "body" (.var "x")], some (.var "x")⟩
     (some ⟨⟨["after_fn"]⟩, [.byRef "x"]⟩)⟩

/-- The function `Aspect exArgs exUnitEarlyFn` emits. -/
def exUnitEarlyEmitted : EmittedFn :=
  ⟨.pubCrate, "f", [], [], .default,
   .unitBody (some ⟨⟨["before_fn"]⟩, []⟩)
     ⟨[.effect "b1" (.lit .unit), .retUnit], none⟩
     (some ⟨⟨["after_fn"]⟩, []⟩)⟩

/-- The function `Aspect exArgs exTypedEarlyFn` emits. -/
def exTypedEarlyEmitted : EmittedFn :=
  ⟨.pub, "h", [], [.typed (.ident "x") (.reference "i64")], .typed (.plain "i64"),
   .typedBody (some ⟨⟨["before_fn"]⟩, [.bare "x"]⟩)
     ⟨[.ret (.var "x")], some (.lit (.int 0))⟩
     (some ⟨⟨["after_fn"]⟩, [.bare "x"]⟩)⟩

/-- The function `Aspect [] exTypedFn` emits (no hooks configured). -/
def exNoHookEmitted : EmittedFn :=
  ⟨.pub, "g", [], [.typed (.ident "x") (.plain "i64")], .typed (.plain "i64"),
   .typedBody none ⟨[.effect "body" (.var "x")], some (.var "x")⟩ none⟩

/-! ## Claims -/

/-- C1: every transformed function follows exactly two cases selected by
the original return type — unit return inlines the original body between
the hook calls, non-unit return binds the body's value and returns it
after the after call — and keeps the original name, generics, parameter
list and return type. -/
theorem C1_emission_template (args : List NestedMeta) (input : ItemFn)
    (f : EmittedFn) (fwds : List FwdExpr) (b a : Option SynPath)
    (hf : computeFnArgs input.inputs = .ok fwds)
    (hp : parseHooksLoop args none none = .ok (b, a))
    (h : Aspect args input = .ok f) :
    f.name = input.name ∧ f.generics = input.generics ∧
    f.inputs = input.inputs ∧ f.output = input.output ∧
    match input.output with
    | .default =>
      f.body = .unitBody (b.map fun p => ⟨p, fwds⟩) input.body
        (a.map fun p => ⟨p, fwds⟩)
    | .typed _ =>
      f.body = .typedBody (b.map fun p => ⟨p, fwds⟩) input.body
        (a.map fun p => ⟨p, fwds⟩) := by
  obtain ⟨fwds2, b2, a2, hf2, hp2, hstruct⟩ := Aspect_ok_structure args input f h
  rw [hf] at hf2
  rw [hp] at hp2
  cases hf2
  cases hp2
  subst hstruct
  refine ⟨rfl, rfl, rfl, rfl, ?_⟩
  cases input.output <;> simp

/-- C1 witness: the template instantiated on a concrete typed function. -/
theorem C1_emission_template_witness :
    exTypedEmitted.name = exTypedFn.name ∧
    exTypedEmitted.generics = exTypedFn.generics ∧
    exTypedEmitted.inputs = exTypedFn.inputs ∧
    exTypedEmitted.output = exTypedFn.output ∧
    exTypedEmitted.body =
      .typedBody (some ⟨⟨["before_fn"]⟩, [.byRef "x"]⟩) exTypedFn.body
        (some ⟨⟨["after_fn"]⟩, [.byRef "x"]⟩) :=
  C1_emission_template exArgs exTypedFn exTypedEmitted [.byRef "x"]
    (some ⟨["before_fn"]⟩) (some ⟨["after_fn"]⟩) rfl rfl rfl

/-- C2: for a non-unit return type, the transformed function returns
exactly the value the original body would have produced on the same
arguments; the after hook's execution does not alter it. -/
theorem C2_value_preservation (args : List NestedMeta) (input : ItemFn)
    (f : EmittedFn) (env : Env) (ty : Ty)
    (hty : input.output = .typed ty)
    (h : Aspect args input = .ok f) :
    (runEmitted env f).2 = (runOriginal env input).2 := by
  obtain ⟨fwds, b, a, hf, hp, hstruct⟩ := Aspect_ok_structure args input f h
  subst hstruct
  rcases hE : evalBlock env input.body with ⟨tr, oc⟩
  cases oc <;>
    simp [runEmitted, runBody, runOriginal, hty, hE]

/-- C2 witness: concrete typed function, concrete invocation. -/
theorem C2_value_preservation_witness :
    (runEmitted exEnv exTypedEmitted).2 = (runOriginal exEnv exTypedFn).2 :=
  C2_value_preservation exArgs exTypedFn exTypedEmitted exEnv (.plain "i64")
    rfl rfl

/-- C3 counterexample: a unit-return function whose body exits early, with
both hooks configured. The before hook runs, the body runs, but the after
hook never runs on this invocation, refuting the claim that the after hook
runs on every invocation including those where the body exits early. -/
theorem C3_counterexample :
    Aspect exArgs exUnitEarlyFn = .ok exUnitEarlyEmitted ∧
    exUnitEarlyEmitted.body.beforeHook = some ⟨⟨["before_fn"]⟩, []⟩ ∧
    exUnitEarlyEmitted.body.afterHook = some ⟨⟨["after_fn"]⟩, []⟩ ∧
    (runEmitted [] exUnitEarlyEmitted).1 =
      [.hook ["before_fn"] [], .effect "b1" .unit] ∧
    Event.hook ["after_fn"] [] ∉ (runEmitted [] exUnitEarlyEmitted).1 := by
  exact ⟨rfl, rfl, rfl, rfl, by decide⟩

/-- C3 (amended): with both hooks configured, the trace of every
invocation is the before-hook event, then the body's events, then — except
when the return type is unit and the body exited early, in which case the
function returns immediately and the after call is skipped — the
after-hook event. -/
theorem C3_call_order (args : List NestedMeta) (input : ItemFn)
    (f : EmittedFn) (pb pa : SynPath) (fwds : List FwdExpr) (env : Env)
    (hf : computeFnArgs input.inputs = .ok fwds)
    (hp : parseHooksLoop args none none = .ok (some pb, some pa))
    (h : Aspect args input = .ok f) :
    (runEmitted env f).1 =
      Event.hook pb.segments (fwds.map (evalFwd env)) ::
        ((evalBlock env input.body).1 ++
          (match input.output, (evalBlock env input.body).2 with
           | .default, .early _ => []
           | _, _ => [Event.hook pa.segments (fwds.map (evalFwd env))])) := by
  obtain ⟨fwds2, b2, a2, hf2, hp2, hstruct⟩ := Aspect_ok_structure args input f h
  rw [hf] at hf2
  rw [hp] at hp2
  cases hf2
  cases hp2
  subst hstruct
  rcases hE : evalBlock env input.body with ⟨tr, oc⟩
  cases houtput : input.output with
  | default =>
    cases oc <;> simp [runEmitted, runBody, houtput, hE, hookEvents]
  | typed ty =>
    cases oc <;> simp [runEmitted, runBody, houtput, hE, hookEvents]

/-- C3 witness: concrete typed function, both hooks configured; the trace
is before-event, body-event, after-event in that order. -/
theorem C3_call_order_witness :
    (runEmitted exEnv exTypedEmitted).1 =
      [Event.hook ["before_fn"] [.int 42], .effect "body" (.int 42),
       .hook ["after_fn"] [.int 42]] :=
  C3_call_order exArgs exTypedFn exTypedEmitted ⟨["before_fn"]⟩
    ⟨["after_fn"]⟩ [.byRef "x"] exEnv rfl rfl rfl

/-- C4: each forwarding expression is the bare identifier exactly when the
declared type is a reference type and a reference to the identifier
otherwise, in declaration order, and the identical sequence is used
verbatim in both the before call and the after call. -/
theorem C4_forwarding (args : List NestedMeta) (input : ItemFn)
    (f : EmittedFn) (fwds : List FwdExpr)
    (hf : computeFnArgs input.inputs = .ok fwds)
    (h : Aspect args input = .ok f) :
    fwds.length = input.inputs.length ∧
    (∀ i, i < input.inputs.length →
      ∃ name ty, input.inputs[i]? = some (.typed (.ident name) ty) ∧
        fwds[i]? = some (specFwd name ty)) ∧
    (∀ c, f.body.beforeHook = some c → c.args = fwds) ∧
    (∀ c, f.body.afterHook = some c → c.args = fwds) := by
  obtain ⟨hlen, hget⟩ := computeFnArgs_ok_spec input.inputs fwds hf
  obtain ⟨fwds2, b2, a2, hf2, hp2, hstruct⟩ := Aspect_ok_structure args input f h
  rw [hf] at hf2
  cases hf2
  subst hstruct
  refine ⟨hlen, hget, ?_, ?_⟩ <;>
  · intro c hc
    cases houtput : input.output <;> rw [houtput] at hc <;>
      cases b2 <;> cases a2 <;>
      simp only [EmittedBody.beforeHook, EmittedBody.afterHook,
        Option.map_none', Option.map_some', Option.some.injEq] at hc <;>
      cases hc <;> rfl

/-- C4 witness: concrete value-typed parameter forwarded as `&x` in both
hook calls. -/
theorem C4_forwarding_witness :
    computeFnArgs exTypedFn.inputs = .ok [FwdExpr.byRef "x"] ∧
    Aspect exArgs exTypedFn = .ok exTypedEmitted ∧
    [FwdExpr.byRef "x"].length = exTypedFn.inputs.length :=
  ⟨rfl, rfl,
    (C4_forwarding exArgs exTypedFn exTypedEmitted [.byRef "x"] rfl rfl).1⟩

/-- C5: the emitted visibility is `pub` exactly when the original
visibility is public; every other original visibility is emitted as
`pub(crate)`. -/
theorem C5_visibility (args : List NestedMeta) (input : ItemFn)
    (f : EmittedFn) (h : Aspect args input = .ok f) :
    (f.vis = .pub ↔ input.vis = .pub) ∧
    (f.vis = .pubCrate ↔ input.vis ≠ .pub) := by
  obtain ⟨fwds, b, a, hf, hp, hstruct⟩ := Aspect_ok_structure args input f h
  subst hstruct
  cases input.vis <;> simp

/-- C5 witness: a public original stays public; an inherited-visibility
original becomes `pub(crate)`. -/
theorem C5_visibility_witness :
    exTypedEmitted.vis = VisOut.pub ∧ exUnitEarlyEmitted.vis = VisOut.pubCrate :=
  ⟨(C5_visibility exArgs exTypedFn exTypedEmitted rfl).1.mpr rfl,
   (C5_visibility exArgs exUnitEarlyFn exUnitEarlyEmitted rfl).2.mpr
     (by simp [exUnitEarlyFn])⟩

/-- C6: the signature analysis fails exactly when some parameter is an
implicit receiver or a typed parameter with a non-identifier binding
pattern; for every other parameter list it succeeds and records, in
order, each parameter's binding identifier and declared type (through the
forwarding rule applied to them). -/
theorem C6_signature_analysis (l : List FnArg) :
    (isOkE (computeFnArgs l) = false ↔ l.any badParam = true) ∧
    ∀ fwds, computeFnArgs l = .ok fwds →
      fwds.length = l.length ∧
      ∀ i, i < l.length →
        ∃ name ty, l[i]? = some (.typed (.ident name) ty) ∧
          fwds[i]? = some (specFwd name ty) := by
  constructor
  · rw [computeFnArgs_isOk]
    cases l.any badParam <;> simp
  · intro fwds h
    exact computeFnArgs_ok_spec l fwds h

/-- C6 witness: a receiver parameter is rejected; a plain identifier
parameter list is accepted. -/
theorem C6_signature_analysis_witness :
    isOkE (computeFnArgs [FnArg.receiver]) = false ∧
    isOkE (computeFnArgs [FnArg.typed (.ident "x") (.plain "i64")]) = true :=
  ⟨(C6_signature_analysis [FnArg.receiver]).1.mpr rfl, rfl⟩

/-- C7: an attribute argument named `before` or `after` whose string does
not parse as a callable path makes the whole transformation abort with an
error (no function is emitted); when every such string parses, the
hook-parsing stage never fails. -/
theorem C7_malformed_hook_path (args : List NestedMeta) (input : ItemFn) :
    (args.any malformedHookArg = true → isOkE (Aspect args input) = false) ∧
    (args.any malformedHookArg = false →
      isOkE (parseHooksLoop args none none) = true) := by
  constructor
  · intro hm
    unfold Aspect
    cases hfa : computeFnArgs input.inputs with
    | error e => simp [isOkE]
    | ok fwds =>
      have hbad := parseHooksLoop_any_malformed args hm none none
      cases hp : parseHooksLoop args none none with
      | error e => simp [isOkE]
      | ok ba => rw [hp] at hbad; simp [isOkE] at hbad
  · intro hm
    exact parseHooksLoop_no_malformed args hm none none

/-- C7 witness: the malformed string `###` as a `before` value aborts the
transformation of a concrete function; the well-formed configuration
parses without failure. -/
theorem C7_malformed_hook_path_witness :
    exBadArgs.any malformedHookArg = true ∧
    isOkE (Aspect exBadArgs exTypedFn) = false ∧
    isOkE (parseHooksLoop exArgs none none) = true :=
  ⟨rfl, (C7_malformed_hook_path exBadArgs exTypedFn).1 rfl,
    (C7_malformed_hook_path exArgs exTypedFn).2 rfl⟩

/-- C8: an attribute argument whose name is neither `before` nor `after`
is skipped without error and has no effect on the emitted function;
supplying zero recognized options is legal and leaves both hook slots
empty, so both hook calls are omitted. -/
theorem C8_unrecognized_skipped (l1 l2 : List NestedMeta) (x : NestedMeta)
    (input : ItemFn) (hx : otherNamed x = true)
    (args : List NestedMeta) (hz : args.any setsHookSlot = false) :
    Aspect (l1 ++ x :: l2) input = Aspect (l1 ++ l2) input ∧
    parseHooksLoop args none none = .ok (none, none) ∧
    ∀ f, Aspect args input = .ok f →
      f.body.beforeHook = none ∧ f.body.afterHook = none := by
  refine ⟨?_, parseHooksLoop_no_setter args hz none none, ?_⟩
  · unfold Aspect
    rw [parseHooksLoop_skip_insert l1 l2 x hx none none]
  · intro f h
    obtain ⟨fwds, b, a, hf, hp, hstruct⟩ := Aspect_ok_structure args input f h
    rw [parseHooksLoop_no_setter args hz none none] at hp
    cases hp
    subst hstruct
    cases input.output <;> simp [EmittedBody.beforeHook, EmittedBody.afterHook]

/-- C8 witness: prepending an argument named `around` changes nothing, and
an argument list with no recognized option yields the empty
configuration. -/
theorem C8_unrecognized_skipped_witness :
    Aspect (exOtherArg :: exArgs) exTypedFn = Aspect exArgs exTypedFn ∧
    parseHooksLoop [exOtherArg] none none = .ok (none, none) :=
  ⟨(C8_unrecognized_skipped [] exArgs exOtherArg exTypedFn rfl [exOtherArg]
      rfl).1,
   (C8_unrecognized_skipped [] exArgs exOtherArg exTypedFn rfl [exOtherArg]
      rfl).2.1⟩

/-- C9: with no hooks configured, both hook calls are elided entirely and
the transformed function's run (trace and return value) is identical to
the untransformed function's run, for unit and non-unit return types
alike. -/
theorem C9_no_hooks_identity (args : List NestedMeta) (input : ItemFn)
    (f : EmittedFn) (env : Env)
    (hp : parseHooksLoop args none none = .ok (none, none))
    (h : Aspect args input = .ok f) :
    f.body.beforeHook = none ∧ f.body.afterHook = none ∧
    runEmitted env f = runOriginal env input := by
  obtain ⟨fwds, b, a, hf, hp2, hstruct⟩ := Aspect_ok_structure args input f h
  rw [hp] at hp2
  cases hp2
  subst hstruct
  rcases hE : evalBlock env input.body with ⟨tr, oc⟩
  cases houtput : input.output <;>
    refine ⟨by simp [houtput, EmittedBody.beforeHook],
      by simp [houtput, EmittedBody.afterHook], ?_⟩ <;>
    cases oc <;>
      simp [runEmitted, runBody, runOriginal, houtput, hE, hookEvents]

/-- C9 witness: a concrete typed function transformed with an empty
attribute list behaves exactly like the original. -/
theorem C9_no_hooks_identity_witness :
    exNoHookEmitted.body.beforeHook = none ∧
    exNoHookEmitted.body.afterHook = none ∧
    runEmitted exEnv exNoHookEmitted = runOriginal exEnv exTypedFn :=
  C9_no_hooks_identity [] exTypedFn exNoHookEmitted exEnv rfl rfl

/-- C10: with both hooks configured and a body that exits early, a
non-unit return type evaluates the body inside the immediately-invoked
closure, so the early return only exits the closure: its value is bound
as the result and the after hook still runs; a unit return type inlines
the body, so the early return exits the transformed function and the
after hook is skipped (the trace ends with the body's events). -/
theorem C10_early_return_semantics (args : List NestedMeta) (input : ItemFn)
    (f : EmittedFn) (env : Env) (v : Value) (pb pa : SynPath)
    (fwds : List FwdExpr)
    (hf : computeFnArgs input.inputs = .ok fwds)
    (hp : parseHooksLoop args none none = .ok (some pb, some pa))
    (h : Aspect args input = .ok f)
    (he : (evalBlock env input.body).2 = .early v) :
    match input.output with
    | .typed _ =>
      f.body = .typedBody (some ⟨pb, fwds⟩) input.body (some ⟨pa, fwds⟩) ∧
      (runEmitted env f).2 = v ∧
      (runEmitted env f).1 =
        Event.hook pb.segments (fwds.map (evalFwd env)) ::
          ((evalBlock env input.body).1 ++
            [Event.hook pa.segments (fwds.map (evalFwd env))])
    | .default =>
      f.body = .unitBody (some ⟨pb, fwds⟩) input.body (some ⟨pa, fwds⟩) ∧
      (runEmitted env f).1 =
        Event.hook pb.segments (fwds.map (evalFwd env)) ::
          (evalBlock env input.body).1 := by
  obtain ⟨fwds2, b2, a2, hf2, hp2, hstruct⟩ := Aspect_ok_structure args input f h
  rw [hf] at hf2
  rw [hp] at hp2
  cases hf2
  cases hp2
  subst hstruct
  rcases hE : evalBlock env input.body with ⟨tr, oc⟩
  rw [hE] at he
  simp only at he
  subst he
  cases houtput : input.output with
  | default =>
    exact ⟨by simp [houtput], by simp [runEmitted, runBody, houtput, hE, hookEvents]⟩
  | typed ty =>
    exact ⟨by simp [houtput], by simp [runEmitted, runBody, houtput, hE],
      by simp [runEmitted, runBody, houtput, hE, hookEvents]⟩

/-- C10 witness: a typed function whose body is `return x;` still runs the
after hook and returns the early value. -/
theorem C10_early_return_semantics_witness :
    (evalBlock exEnv exTypedEarlyFn.body).2 = .early (.int 42) ∧
    (runEmitted exEnv exTypedEarlyEmitted).2 = Value.int 42 ∧
    (runEmitted exEnv exTypedEarlyEmitted).1 =
      [Event.hook ["before_fn"] [.int 42], .hook ["after_fn"] [.int 42]] :=
  ⟨rfl,
   (C10_early_return_semantics exArgs exTypedEarlyFn exTypedEarlyEmitted
     exEnv (.int 42) ⟨["before_fn"]⟩ ⟨["after_fn"]⟩ [.bare "x"]
     rfl rfl rfl rfl).2.1,
   (C10_early_return_semantics exArgs exTypedEarlyFn exTypedEarlyEmitted
     exEnv (.int 42) ⟨["before_fn"]⟩ ⟨["after_fn"]⟩ [.bare "x"]
     rfl rfl rfl rfl).2.2⟩

end Fnaop
